import Mathlib

set_option maxHeartbeats 1000000

/-!
Verification of the utility module `dcos/api/util.py` of the dcos-cli
repository: a temporary-directory context manager (`tempdir`), executable
lookup (`which`), logger configuration (`configure_logger`), JSON/int
parse wrappers (`load_json`, `load_jsons`, `parse_int`) and JSON-schema
validation error formatting (`validate_json`).

The shallow embedding translates each function from the Python source.
External collaborators (the `jsonschema` engine, the standard `json`
decoder, the file system, the environment) are modelled as explicit
parameters: `validate_json` is a function of the violation list the
engine yields, the JSON decoder is an abstract `String → Option Json`
argument, and `which` receives a record of file-system predicates.
Values of `errors.DefaultError` and the constants module (which are part
of the repository but not of the given sources) are modelled from the
spec where noted.
-/

/-! ## Python-string basics: code points and lexicographic comparison -/

/-- The single-quote character, written via its code point 39. -/
def squote : Char := Char.ofNat 39

/-- ASCII whitespace as matched by the regex class `\s` in the source's
pattern (space, tab, newline, carriage return, vertical tab, form feed).
Python's `\s` additionally matches some non-ASCII spaces; only the
membership of ASCII characters matters for the properties proved here. -/
def isPySpace (c : Char) : Bool :=
  c = ' ' || c = '\t' || c = '\n' || c = '\r' || c = Char.ofNat 11 || c = Char.ofNat 12

/-- The character class of the source's regex: a left square bracket,
parenthesis, curly brace, or whitespace character. -/
def isClassChar (c : Char) : Bool :=
  c = '[' || c = '(' || c = Char.ofNat 123 || isPySpace c

/-- Lexicographic (code-point order, case-sensitive) `≤` on character
lists; this is exactly how Python compares two `str` values. -/
def chLe : List Char → List Char → Bool
  | [], _ => true
  | _ :: _, [] => false
  | a :: as, b :: bs => if a = b then chLe as bs else decide (a.toNat < b.toNat)

/-- Python's `s <= t` on strings: lexicographic code-point comparison. -/
def pyStrLe (s t : String) : Bool := chLe s.data t.data

/-! ## The message-normalization hack of `validate_json`

The source applies two regex substitutions to each violation message:
first `re.sub` of the anchored pattern (`u` at the start, followed by a
quote) replaced by a bare quote, then `re.sub` of (class char, `u`,
quote) replaced by (class char, quote), scanning left to right without
overlap.  `fixHead` models the anchored substitution, `fixTail` the
scanning one. -/

/-- The anchored substitution: a leading `u` followed by a single quote
loses the `u`. -/
def fixHead (l : List Char) : List Char :=
  match l with
  | a :: b :: rest => if a = 'u' && b = squote then squote :: rest else a :: b :: rest
  | l => l

/-- The scanning substitution: each non-overlapping occurrence of a class
character followed by `u` and a single quote loses the `u`; scanning
resumes after the replaced occurrence, exactly as `re.sub` does. -/
def fixTail : List Char → List Char
  | c1 :: c2 :: c3 :: rest =>
    if isClassChar c1 && c2 = 'u' && c3 = squote then c1 :: squote :: fixTail rest
    else c1 :: fixTail (c2 :: c3 :: rest)
  | l => l

/-- `hack_error_message_fix` from the source: the anchored substitution is
applied first (it is the inner expression), then the scanning one. -/
def hack_error_message_fix (message : String) : String :=
  ⟨fixTail (fixHead message.data)⟩

/-! ## JSON values and `json.dumps`

`Json` models the Python values a JSON document can decode to;
`Json.null` models the Python value `None` (the result of decoding the
document `null`).  Python floats are not modelled; no verified property
concerns them.  `dumps` follows `json.dumps` with its default arguments:
separators `", "` and `": "`, `ensure_ascii` escaping of control and
non-ASCII characters (with surrogate pairs above the basic plane), and
decimal integer rendering. -/

mutual
inductive Json where
  | null
  | bool (b : Bool)
  | int (n : Int)
  | str (s : String)
  | arr (xs : JsonList)
  | obj (xs : JsonObj)
inductive JsonList where
  | nil
  | cons (x : Json) (xs : JsonList)
inductive JsonObj where
  | nil
  | cons (k : String) (v : Json) (xs : JsonObj)
end

/-- Lower-case hexadecimal digit, as Python's `\uXXXX` escapes use. -/
def hexDigit (n : Nat) : Char :=
  if n < 10 then Char.ofNat (48 + n) else Char.ofNat (87 + n)

/-- Escape of a single character inside a JSON string literal, following
Python's `json` encoder with `ensure_ascii=True`. -/
def escChar (c : Char) : List Char :=
  let n := c.toNat
  if c = '"' then ['\\', '"']
  else if c = '\\' then ['\\', '\\']
  else if c = '\n' then ['\\', 'n']
  else if c = '\r' then ['\\', 'r']
  else if c = '\t' then ['\\', 't']
  else if n = 8 then ['\\', 'b']
  else if n = 12 then ['\\', 'f']
  else if n < 32 || n ≥ 127 then
    if n < 65536 then
      ['\\', 'u', hexDigit (n / 4096 % 16), hexDigit (n / 256 % 16),
       hexDigit (n / 16 % 16), hexDigit (n % 16)]
    else
      let v := n - 65536
      let hi := 55296 + v / 1024
      let lo := 56320 + v % 1024
      ['\\', 'u', hexDigit (hi / 4096 % 16), hexDigit (hi / 256 % 16),
       hexDigit (hi / 16 % 16), hexDigit (hi % 16),
       '\\', 'u', hexDigit (lo / 4096 % 16), hexDigit (lo / 256 % 16),
       hexDigit (lo / 16 % 16), hexDigit (lo % 16)]
  else [c]

/-- JSON string literal serialization. -/
def dumpsStr (s : String) : String :=
  ⟨'"' :: (s.data.flatMap escChar) ++ ['"']⟩

mutual
def dumps : Json → String
  | .null => "null"
  | .bool b => if b then "true" else "false"
  | .int n => toString n
  | .str s => dumpsStr s
  | .arr xs => "[" ++ dumpsList xs ++ "]"
  | .obj xs => "\x7b" ++ dumpsMembers xs ++ "\x7d"
def dumpsList : JsonList → String
  | .nil => ""
  | .cons x .nil => dumps x
  | .cons x (.cons y ys) => dumps x ++ ", " ++ dumpsList (.cons y ys)
def dumpsMembers : JsonObj → String
  | .nil => ""
  | .cons k v .nil => dumpsStr k ++ ": " ++ dumps v
  | .cons k v (.cons k2 v2 ps) =>
    dumpsStr k ++ ": " ++ dumps v ++ ", " ++ dumpsMembers (.cons k2 v2 ps)
end

/-! ## Errors and validation violations -/

/-- Modelled from the spec: `errors.DefaultError` (module `dcos.api.errors`,
not under the given sources) is an error value carrying a human-readable
message. -/
structure DefaultError where
  message : String
deriving DecidableEq

/-- A Python exception escaping a function; `'.'.join` raises `TypeError`
when a sequence item is not a string. -/
inductive PyErr where
  | typeError
deriving DecidableEq

/-- One segment of a violation's `absolute_path`: an object key (a Python
`str`) or an array index (a Python `int`). -/
inductive Seg where
  | key (s : String)
  | idx (n : Nat)
deriving DecidableEq

/-- A `jsonschema.ValidationError` as consumed by the formatter: its
`message`, its `absolute_path` and its `instance` (the offending value;
named `inst` because `instance` is reserved in Lean). -/
structure VErr where
  message : String
  absolute_path : List Seg
  inst : Json

/-- `sort_key` from the source: `six.u` applied to the normalized message;
`six.u` is the identity on Python 3 `str` values. -/
def sort_key (ve : VErr) : String := hack_error_message_fix ve.message

/-- `'.'.join` over the path segments: Python raises `TypeError` upon an
item that is not a string, which `none` models. -/
def joinSegs (segs : List Seg) : Option String :=
  (segs.mapM (fun s => match s with | Seg.key k => some k | Seg.idx _ => none)).map
    (String.intercalate ".")

/-- The block formatter `format` nested in `validate_json`: the `Error:`
line with the normalized message, then (for a non-empty path) the `Path:`
line joining the segments with a dot, then the `Value:` line with the
JSON-serialized offending value. -/
def format (e : VErr) : Except PyErr String :=
  if e.absolute_path.length > 0 then
    match joinSegs e.absolute_path with
    | some p =>
      Except.ok ("Error: " ++ hack_error_message_fix e.message ++ "\n" ++
        ("Path: " ++ p ++ "\n" ++ ("Value: " ++ dumps e.inst)))
    | none => Except.error PyErr.typeError
  else
    Except.ok ("Error: " ++ hack_error_message_fix e.message ++ "\n" ++
      ("Value: " ++ dumps e.inst))

/-- The list comprehension `[format(e) for e in validation_errors]`:
formats left to right, the first exception aborting the whole call. -/
def mapFormat : List VErr → Except PyErr (List String)
  | [] => Except.ok []
  | v :: vs =>
    match format v with
    | Except.error e => Except.error e
    | Except.ok b =>
      match mapFormat vs with
      | Except.error e => Except.error e
      | Except.ok bs => Except.ok (b :: bs)

/-- Stable insertion: the new element goes after every element that
compares `≤` to it, preserving the relative order of ties. -/
def insertLe (le : α → α → Bool) (x : α) : List α → List α
  | [] => [x]
  | y :: ys => if le y x then y :: insertLe le x ys else x :: y :: ys

/-- Python's `sorted`: a stable sort by `le`.  CPython uses a stable merge
sort; any stable sort produces the same output, and insertion from the
left is the simplest one. -/
def pySorted (le : α → α → Bool) (l : List α) : List α :=
  l.foldl (fun acc x => insertLe le x acc) []

/-- The comparison `sorted(validation_errors, key=sort_key)` uses:
Python's `<`/`≤` on the precomputed key strings. -/
def leVErr (a b : VErr) : Bool := pyStrLe (sort_key a) (sort_key b)

/-- `validate_json` as a function of the violation list produced by
`jsonschema.Draft4Validator(schema).iter_errors(instance)` (the engine is
external to the repository): sort the violations by `sort_key`, format
each, and join the blocks with a blank line.  `len(formatted_errors) is 0`
is an identity comparison on a small cached int, equivalent to `= 0`. -/
def validate_json (ves : List VErr) : Except PyErr (Option DefaultError) :=
  match mapFormat (pySorted leVErr ves) with
  | Except.error e => Except.error e
  | Except.ok formatted_errors =>
    if formatted_errors.length = 0 then Except.ok none
    else Except.ok (some ⟨String.intercalate "\n\n" formatted_errors⟩)

/-! ## `which`: executable lookup

The file system and the process environment are modelled as a record of
predicates: `isfile` is `os.path.isfile`, `xok` is
`os.access(path, os.X_OK)`, and `environ` is `os.environ`.  POSIX path
conventions are used (`os.sep` is a slash, `os.pathsep` a colon); on
Windows the separator characters differ but the structure is the same. -/

structure Sys where
  isfile : String → Bool
  xok : String → Bool
  environ : String → Option String

/-- Modelled from the spec: `constants.PATH_ENV` (module
`dcos.api.constants`, not under the given sources) names the platform's
standard search-path environment variable. -/
def PATH_ENV : String := "PATH"

/-- `is_exe` nested in `which`. -/
def is_exe (sys : Sys) (file_path : String) : Bool :=
  sys.isfile file_path && sys.xok file_path

/-- The characters of `p` up to and including the last slash (empty when
`p` has no slash): the raw head of `os.path.split(p)` before trailing
slashes are stripped. -/
def splitHeadChars (p : String) : List Char :=
  (p.data.reverse.dropWhile (fun c => !(c = '/'))).reverse

/-- The head component of `os.path.split(p)` (POSIX): everything up to and
including the last slash, with trailing slashes stripped unless the head
consists only of slashes. -/
def split_head (p : String) : String :=
  if (splitHeadChars p).isEmpty then ""
  else if (splitHeadChars p).all (fun c => c = '/') then ⟨splitHeadChars p⟩
  else ⟨((splitHeadChars p).reverse.dropWhile (fun c => c = '/')).reverse⟩

/-- `path.strip(chr(34))`: remove double quotes from both ends of a search
path entry. -/
def stripQuotes (s : String) : String :=
  ⟨((s.data.dropWhile (fun c => c = '"')).reverse.dropWhile
      (fun c => c = '"')).reverse⟩

/-- `pre` is a prefix of `s` (computed on the character lists, so that it
evaluates by kernel reduction). -/
def strStartsWith (s pre : String) : Bool := pre.data.isPrefixOf s.data

/-- `suff` is a suffix of `s`. -/
def strEndsWith (s suff : String) : Bool :=
  suff.data.reverse.isPrefixOf s.data.reverse

/-- `os.path.join(a, b)` (POSIX, two arguments). -/
def os_path_join (a b : String) : String :=
  if strStartsWith b "/" then b
  else if a = "" || strEndsWith a "/" then a ++ b
  else a ++ "/" ++ b

/-- `os.path.isabs` (POSIX). -/
def os_path_isabs (p : String) : Bool := strStartsWith p "/"

/-- Character-list splitter behind `pySplit`. -/
def splitChars (sep : Char) : List Char → List (List Char)
  | [] => [[]]
  | c :: cs =>
    if c = sep then [] :: splitChars sep cs
    else
      match splitChars sep cs with
      | [] => [[c]]
      | l :: ls => (c :: l) :: ls

/-- Python's `str.split` with a one-character separator (as in
`os.environ[PATH_ENV].split(os.pathsep)`): splitting the empty string
gives one empty entry, and adjacent separators give empty entries. -/
def pySplit (s : String) (sep : Char) : List String :=
  (splitChars sep s.data).map (fun l => ⟨l⟩)

/-- The `for path in os.environ[PATH_ENV].split(os.pathsep)` loop of
`which`: try each entry in order, returning the first joined path that is
an executable file. -/
def whichSearch (sys : Sys) (program : String) : List String → Option String
  | [] => none
  | p :: ps =>
    if is_exe sys (os_path_join (stripQuotes p) program)
    then some (os_path_join (stripQuotes p) program)
    else whichSearch sys program ps

/-- `which` from the source: if the program name has a non-empty directory
component it is checked directly, otherwise each entry of the search-path
variable is tried in order; every other case returns `None`. -/
def which (sys : Sys) (program : String) : Option String :=
  if !(split_head program).isEmpty then
    if is_exe sys program then some program else none
  else
    match sys.environ PATH_ENV with
    | some pathVal => whichSearch sys program (pySplit pathVal ':')
    | none => none

/-- A file system whose only executable file sits at the relative path
`d/prog`: used to refute the "absolute path" part of the claim. -/
def sysRelative : Sys :=
  ⟨fun s => s = "d/prog", fun s => s = "d/prog", fun _ => none⟩

/-- A file system with `/bin/ls` executable and a two-entry search path. -/
def sysSearch : Sys :=
  ⟨fun s => s = "/bin/ls", fun s => s = "/bin/ls",
   fun k => if k = "PATH" then some "/bin:/usr/bin" else none⟩

/-! ## `configure_logger` -/

/-- The process-wide effect `configure_logger` requests from the `logging`
module: disable all output, configure the given level, or leave logging
untouched. -/
inductive LogEffect where
  | disableAll
  | basicConfig (level : String)
  | noop
deriving DecidableEq

/-- Modelled from the spec: `constants.VALID_LOG_LEVEL_VALUES` (module
`dcos.api.constants`, not under the given sources), the fixed enumerated
set of valid log level names. -/
def VALID_LOG_LEVEL_VALUES : List String :=
  ["debug", "info", "warning", "error", "critical"]

/-- Python's `str.upper` for the ASCII level names. -/
def pyUpper (s : String) : String := ⟨s.data.map Char.toUpper⟩

/-- Python's `str.lower` (used only to state case-insensitive matching). -/
def pyLower (s : String) : String := ⟨s.data.map Char.toLower⟩

/-- A string between `repr` quotes, as `'{!r}'.format` renders it for the
quote-free ASCII values occurring here. -/
def pyReprStr (s : String) : String :=
  String.singleton squote ++ s ++ String.singleton squote

/-- The `repr` of the list of valid values, as `'{!r}'.format` renders it. -/
def pyReprStrList (l : List String) : String :=
  "[" ++ String.intercalate ", " (l.map pyReprStr) ++ "]"

/-- The message of the error returned on an unknown log level, following
the source's format string. -/
def logLevelErrorMessage (log_level : String) : String :=
  "Log level set to an unknown value " ++ pyReprStr log_level ++
    ". Valid values are " ++ pyReprStrList VALID_LOG_LEVEL_VALUES

/-- `configure_logger` from the source: `None` disables all logging
output; a string equal (case-sensitively) to one of the valid values
configures logging at the upper-cased level; any other string leaves
logging untouched and returns an error naming the value and the valid
set. -/
def configure_logger (log_level : Option String) :
    LogEffect × Option DefaultError :=
  match log_level with
  | none => (LogEffect.disableAll, none)
  | some lv =>
    if lv ∈ VALID_LOG_LEVEL_VALUES then
      (LogEffect.basicConfig (pyUpper lv), none)
    else
      (LogEffect.noop, some ⟨logLevelErrorMessage lv⟩)

/-! ## JSON/int parse wrappers

`json.load`/`json.loads` belong to the Python standard library, external
to the repository, so the decoder is an abstract argument
`String → Option Json`: `some` is a successful decode, `none` a decode
that raises.  `json.load(reader)` decodes the text read from the stream.
The wrappers translate any exception into a returned error pair with a
fixed message, after logging the cause; `Json.null` models the Python
value `None` in the value slot. -/

/-- `load_json` from the source (stream variant, applied to the text the
reader yields). -/
def load_json (decode : String → Option Json) (reader : String) :
    Json × Option DefaultError :=
  match decode reader with
  | some v => (v, none)
  | none => (Json.null, some ⟨"Error loading JSON."⟩)

/-- `load_jsons` from the source (string variant). -/
def load_jsons (decode : String → Option Json) (value : String) :
    Json × Option DefaultError :=
  match decode value with
  | some v => (v, none)
  | none => (Json.null, some ⟨"Error loading JSON."⟩)

/-- The digits of an integer literal folded into its value. -/
def digitsVal (l : List Char) : Nat :=
  l.foldl (fun a c => 10 * a + (c.toNat - 48)) 0

/-- A non-empty all-digit run, or `none`. -/
def pyIntDigits (l : List Char) : Option Nat :=
  if l ≠ [] ∧ l.all (fun c => c.isDigit) then some (digitsVal l) else none

/-- Sign handling of `int(str)`. -/
def pyIntCore : List Char → Option Int
  | [] => none
  | c :: ds =>
    if c = '+' then (pyIntDigits ds).map (fun n => (n : Int))
    else if c = '-' then (pyIntDigits ds).map (fun n => -(n : Int))
    else (pyIntDigits (c :: ds)).map (fun n => (n : Int))

/-- Python's `int(str)`: surrounding whitespace is stripped, an optional
sign precedes a non-empty run of digits.  (Underscore separators of newer
Pythons and non-ASCII digits are not modelled; no property here concerns
them.) -/
def pyInt (s : String) : Option Int :=
  pyIntCore ((s.data.dropWhile isPySpace).reverse.dropWhile isPySpace).reverse

/-- `parse_int` from the source: the `int` call wrapped into the
result/error convention with a fixed message. -/
def parse_int (string : String) : Option Int × Option DefaultError :=
  match pyInt string with
  | some n => (some n, none)
  | none => (none, some ⟨"Error parsing string as int"⟩)

/-- The decoder restricted to the document `null`, agreeing with
`json.loads` there: `json.loads` maps the text `null` to the Python value
`None`. -/
def decodeNullOnly : String → Option Json :=
  fun s => if s = "null" then some Json.null else none

/-! ## `tempdir` -/

/-- `shutil.rmtree(path, ignore_errors=True)`: remove the directory and
everything below it from the file system; with `ignore_errors` the call
never raises. -/
def rmtree_ignore_errors (path : String) (fs : List String) : List String :=
  fs.filter (fun p => !(p = path || strStartsWith p (path ++ "/")))

/-- The `tempdir` context manager applied to a body, modelled over a file
system that is a list of existing paths.  `tempfile.mkdtemp` yields a
fresh directory name `d` (a parameter, since its choice is
environment-determined) and creates it; the body then runs — returning
normally (`Except.ok`) or raising (`Except.error`) — and the `finally`
block deletes the tree in either case, ignoring deletion errors, before
the result or exception propagates. -/
def tempdir {ε α : Type} (d : String)
    (body : String → List String → Except ε α × List String)
    (fs : List String) : Except ε α × List String :=
  ((body d (d :: fs)).1, rmtree_ignore_errors d (body d (d :: fs)).2)

theorem charToNat_inj {a b : Char} (h : a.toNat = b.toNat) : a = b :=
  Char.eq_of_val_eq (UInt32.ext h)

theorem chLe_cons (a b : Char) (as bs : List Char) :
    chLe (a :: as) (b :: bs) =
      if a = b then chLe as bs else decide (a.toNat < b.toNat) := rfl

theorem chLe_refl : ∀ l : List Char, chLe l l = true
  | [] => rfl
  | a :: as => by rw [chLe_cons, if_pos rfl]; exact chLe_refl as

theorem chLe_total : ∀ a b : List Char, chLe a b = true ∨ chLe b a = true
  | [], _ => Or.inl rfl
  | _ :: _, [] => Or.inr rfl
  | a :: as, b :: bs => by
    by_cases hab : a = b
    · subst hab
      rw [chLe_cons, if_pos rfl, chLe_cons, if_pos rfl]
      exact chLe_total as bs
    · have hba : b ≠ a := fun h => hab h.symm
      rw [chLe_cons, if_neg hab, chLe_cons, if_neg hba]
      have hne : a.toNat ≠ b.toNat := fun h => hab (charToNat_inj h)
      rcases Nat.lt_or_ge a.toNat b.toNat with h | h
      · exact Or.inl (by simpa using h)
      · exact Or.inr (by simp; omega)

theorem chLe_trans : ∀ a b c : List Char,
    chLe a b = true → chLe b c = true → chLe a c = true
  | [], _, _, _, _ => rfl
  | _ :: _, [], _, h, _ => by simp [chLe] at h
  | _ :: _, _ :: _, [], _, h => by simp [chLe] at h
  | a :: as, b :: bs, c :: cs, h1, h2 => by
    by_cases hab : a = b <;> by_cases hbc : b = c
    · subst hab; subst hbc
      rw [chLe_cons, if_pos rfl] at h1 h2 ⊢
      exact chLe_trans as bs cs h1 h2
    · subst hab
      rw [chLe_cons, if_pos rfl] at h1
      rw [chLe_cons, if_neg hbc] at h2 ⊢
      exact h2
    · subst hbc
      rw [chLe_cons, if_neg hab] at h1 ⊢
      exact h1
    · rw [chLe_cons, if_neg hab] at h1
      rw [chLe_cons, if_neg hbc] at h2
      have hlt : a.toNat < c.toNat := by
        have g1 : a.toNat < b.toNat := by simpa using h1
        have g2 : b.toNat < c.toNat := by simpa using h2
        omega
      have hac : a ≠ c := by
        intro h
        rw [h] at hlt
        have g2 : b.toNat < c.toNat := by simpa using h2
        have g1 : c.toNat < b.toNat := by
          have := h ▸ (by simpa using h1 : a.toNat < b.toNat)
          omega
        omega
      rw [chLe_cons, if_neg hac]
      simpa using hlt

theorem chLe_antisymm : ∀ a b : List Char,
    chLe a b = true → chLe b a = true → a = b
  | [], [], _, _ => rfl
  | [], _ :: _, _, h => by simp [chLe] at h
  | _ :: _, [], h, _ => by simp [chLe] at h
  | a :: as, b :: bs, h1, h2 => by
    by_cases hab : a = b
    · subst hab
      rw [chLe_cons, if_pos rfl] at h1 h2
      rw [chLe_antisymm as bs h1 h2]
    · have hba : b ≠ a := fun h => hab h.symm
      rw [chLe_cons, if_neg hab] at h1
      rw [chLe_cons, if_neg hba] at h2
      have g1 : a.toNat < b.toNat := by simpa using h1
      have g2 : b.toNat < a.toNat := by simpa using h2
      omega

theorem chLe_append : ∀ p a b : List Char, chLe (p ++ a) (p ++ b) = chLe a b
  | [], _, _ => rfl
  | c :: p, a, b => by
    rw [List.cons_append, List.cons_append, chLe_cons, if_pos rfl]
    exact chLe_append p a b

theorem string_eq_of_data_eq : ∀ {s t : String}, s.data = t.data → s = t
  | ⟨_⟩, ⟨_⟩, h => congrArg String.mk h

theorem pyStrLe_trans {a b c : String} (h1 : pyStrLe a b = true)
    (h2 : pyStrLe b c = true) : pyStrLe a c = true :=
  chLe_trans a.data b.data c.data h1 h2

theorem pyStrLe_total (a b : String) : pyStrLe a b = true ∨ pyStrLe b a = true :=
  chLe_total a.data b.data

theorem pyStrLe_antisymm {a b : String} (h1 : pyStrLe a b = true)
    (h2 : pyStrLe b a = true) : a = b :=
  string_eq_of_data_eq (chLe_antisymm a.data b.data h1 h2)

theorem pyStrLe_append (p a b : String) :
    pyStrLe (p ++ a) (p ++ b) = pyStrLe a b := by
  unfold pyStrLe
  rw [String.data_append, String.data_append]
  exact chLe_append p.data a.data b.data

theorem fixTail_cons3 (c1 c2 c3 : Char) (rest : List Char) :
    fixTail (c1 :: c2 :: c3 :: rest) =
      if isClassChar c1 && c2 = 'u' && c3 = squote then c1 :: squote :: fixTail rest
      else c1 :: fixTail (c2 :: c3 :: rest) := rfl

theorem fixTail_nil : fixTail [] = [] := rfl

theorem fixTail_one (c : Char) : fixTail [c] = [c] := rfl

theorem fixTail_two (c d : Char) : fixTail [c, d] = [c, d] := rfl

theorem fixTail_head (c : Char) (l : List Char) :
    ∃ t, fixTail (c :: l) = c :: t := by
  match l with
  | [] => exact ⟨[], rfl⟩
  | [d] => exact ⟨[d], rfl⟩
  | d :: e :: r =>
    rw [fixTail_cons3]
    by_cases h : (isClassChar c && d = 'u' && e = squote) = true
    · rw [if_pos h]; exact ⟨_, rfl⟩
    · rw [if_neg h]; exact ⟨_, rfl⟩

theorem fixTail_second (c d : Char) (l : List Char) :
    (∃ t, fixTail (c :: d :: l) = c :: d :: t) ∨
    (∃ t, fixTail (c :: d :: l) = c :: squote :: t ∧
      isClassChar c = true ∧ d = 'u') := by
  match l with
  | [] => exact Or.inl ⟨[], rfl⟩
  | e :: r =>
    rw [fixTail_cons3]
    by_cases h : (isClassChar c && d = 'u' && e = squote) = true
    · refine Or.inr ⟨fixTail r, ?_, ?_, ?_⟩
      · rw [if_pos h]
      · simp only [Bool.and_eq_true, decide_eq_true_eq] at h
        exact h.1.1
      · simp only [Bool.and_eq_true, decide_eq_true_eq] at h
        exact h.1.2
    · rw [if_neg h]
      obtain ⟨t, ht⟩ := fixTail_head d (e :: r)
      exact Or.inl ⟨t, by rw [ht]⟩

theorem isClassChar_u : isClassChar 'u' = false := by decide

theorem squote_ne_u : squote ≠ 'u' := by decide

theorem isClassChar_squote_eq : isClassChar squote = false := by decide

/-- The scanning substitution is idempotent: a replacement never creates a
new occurrence of the pattern, so a second pass finds nothing to do. -/
theorem fixTail_idem (l : List Char) : fixTail (fixTail l) = fixTail l := by
  match l with
  | [] => rfl
  | [c] => rfl
  | [c, d] => rfl
  | c1 :: c2 :: c3 :: rest =>
    rw [fixTail_cons3]
    by_cases h : (isClassChar c1 && c2 = 'u' && c3 = squote) = true
    · rw [if_pos h]
      have hrest := fixTail_idem rest
      cases hw : fixTail rest with
      | nil => rfl
      | cons e t =>
        cases t with
        | nil =>
          rw [fixTail_cons3, if_neg (by simp [squote_ne_u]), fixTail_two]
        | cons f t2 =>
          rw [fixTail_cons3, if_neg (by simp [squote_ne_u]),
            fixTail_cons3, if_neg (by simp [isClassChar_squote_eq]),
            ← hw, hrest, hw]
    · rw [if_neg h]
      have hrec := fixTail_idem (c2 :: c3 :: rest)
      rcases fixTail_second c2 c3 rest with ⟨t, ht⟩ | ⟨t, ht, hc2, hd⟩
      · rw [ht] at hrec ⊢
        rw [fixTail_cons3, if_neg h, hrec]
      · rw [ht] at hrec ⊢
        have hne : c2 ≠ 'u' := by
          intro he
          rw [he] at hc2
          rw [isClassChar_u] at hc2
          exact Bool.false_ne_true hc2
        rw [fixTail_cons3, if_neg (by simp [hne]), hrec]
termination_by l.length
decreasing_by
  · simp; omega
  · simp

theorem fixHead_cons2 (a b : Char) (rest : List Char) :
    fixHead (a :: b :: rest) =
      if a = 'u' && b = squote then squote :: rest else a :: b :: rest := rfl

theorem fixHead_not_head_u :
    ∀ (l : List Char) (a b : Char) (t : List Char),
      fixHead l = a :: b :: t → ¬(a = 'u' ∧ b = squote)
  | [], a, b, t, h => by simp [fixHead] at h
  | [c], a, b, t, h => by simp [fixHead] at h
  | c :: d :: r, a, b, t, h => by
    rw [fixHead_cons2] at h
    by_cases hc : (c = 'u' && d = squote) = true
    · rw [if_pos hc] at h
      injection h with h1 h2
      rintro ⟨rfl, -⟩
      exact squote_ne_u h1
    · rw [if_neg hc] at h
      injection h with h1 h2
      injection h2 with h3 h4
      subst h1
      subst h3
      rintro ⟨rfl, rfl⟩
      exact hc (by simp)

/-- If a list does not begin with `u` followed by a quote, neither does its
image under the scanning substitution. -/
theorem fixHead_fixTail_of_head_safe (m : List Char)
    (hm : ∀ a b t, m = a :: b :: t → ¬(a = 'u' ∧ b = squote)) :
    fixHead (fixTail m) = fixTail m := by
  match m with
  | [] => rfl
  | [c] => rfl
  | a :: b :: t =>
    have hab := hm a b t rfl
    rcases fixTail_second a b t with ⟨t2, ht⟩ | ⟨t2, ht, hcl, rfl⟩
    · rw [ht, fixHead_cons2, if_neg (by simpa using hab)]
    · rw [ht, fixHead_cons2]
      have hne : a ≠ 'u' := by
        intro he
        rw [he, isClassChar_u] at hcl
        exact Bool.false_ne_true hcl
      rw [if_neg (by simp [hne])]

theorem insertLe_cons (le : α → α → Bool) (x y : α) (ys : List α) :
    insertLe le x (y :: ys) =
      if le y x then y :: insertLe le x ys else x :: y :: ys := rfl

theorem insertLe_perm (le : α → α → Bool) (x : α) :
    ∀ l : List α, (insertLe le x l).Perm (x :: l)
  | [] => List.Perm.refl _
  | y :: ys => by
    by_cases h : le y x = true
    · rw [insertLe_cons, if_pos h]
      exact ((insertLe_perm le x ys).cons y).trans (List.Perm.swap x y ys)
    · rw [insertLe_cons, if_neg h]

theorem foldl_insertLe_perm (le : α → α → Bool) :
    ∀ (l acc : List α),
      (l.foldl (fun a x => insertLe le x a) acc).Perm (acc ++ l)
  | [], acc => by simp
  | x :: l, acc => by
    rw [List.foldl_cons]
    exact (foldl_insertLe_perm le l (insertLe le x acc)).trans
      (((insertLe_perm le x acc).append_right l).trans List.perm_middle.symm)

theorem pySorted_perm (le : α → α → Bool) (l : List α) :
    (pySorted le l).Perm l := by
  simpa using foldl_insertLe_perm le l []

theorem insertLe_pairwise {le : α → α → Bool}
    (htot : ∀ a b, le a b = true ∨ le b a = true)
    (htrans : ∀ a b c, le a b = true → le b c = true → le a c = true)
    (x : α) : ∀ l : List α, l.Pairwise (fun a b => le a b = true) →
      (insertLe le x l).Pairwise (fun a b => le a b = true)
  | [], _ => by simp [insertLe]
  | y :: ys, h => by
    obtain ⟨hy, hys⟩ := List.pairwise_cons.mp h
    by_cases hyx : le y x = true
    · rw [insertLe_cons, if_pos hyx, List.pairwise_cons]
      refine ⟨fun z hz => ?_, insertLe_pairwise htot htrans x ys hys⟩
      rcases List.mem_cons.mp ((insertLe_perm le x ys).subset hz) with rfl | hz2
      · exact hyx
      · exact hy z hz2
    · have hxy : le x y = true := (htot x y).resolve_right hyx
      rw [insertLe_cons, if_neg hyx, List.pairwise_cons]
      refine ⟨fun z hz => ?_, h⟩
      rcases List.mem_cons.mp hz with rfl | hz2
      · exact hxy
      · exact htrans x y z hxy (hy z hz2)

theorem foldl_insertLe_pairwise {le : α → α → Bool}
    (htot : ∀ a b, le a b = true ∨ le b a = true)
    (htrans : ∀ a b c, le a b = true → le b c = true → le a c = true) :
    ∀ (l acc : List α), acc.Pairwise (fun a b => le a b = true) →
      (l.foldl (fun a x => insertLe le x a) acc).Pairwise
        (fun a b => le a b = true)
  | [], _, h => h
  | x :: l, acc, h =>
    foldl_insertLe_pairwise htot htrans l (insertLe le x acc)
      (insertLe_pairwise htot htrans x acc h)

theorem pySorted_pairwise {le : α → α → Bool}
    (htot : ∀ a b, le a b = true ∨ le b a = true)
    (htrans : ∀ a b c, le a b = true → le b c = true → le a c = true)
    (l : List α) :
    (pySorted le l).Pairwise (fun a b => le a b = true) :=
  foldl_insertLe_pairwise htot htrans l [] List.Pairwise.nil

/-- Two lists that are permutations of each other, both sorted by a key
comparison, and whose keys are pairwise distinct, are equal.  This is the
canonicity of key-sorting when no two elements tie. -/
theorem sorted_perm_eq_of_nodup_keys {κ : Type} (key : α → κ)
    (le : κ → κ → Bool)
    (hanti : ∀ a b : κ, le a b = true → le b a = true → a = b) :
    ∀ (m1 m2 : List α), m1.Perm m2 →
      m1.Pairwise (fun a b => le (key a) (key b) = true) →
      m2.Pairwise (fun a b => le (key a) (key b) = true) →
      (m1.map key).Nodup → m1 = m2
  | [], m2, h, _, _, _ => h.symm.eq_nil.symm
  | a :: t1, m2, h, hp1, hp2, hnd => by
    cases m2 with
    | nil => exact absurd h.eq_nil (by simp)
    | cons b t2 =>
      have hab : a = b := by
        by_contra hne
        have hb1 : b ∈ t1 := by
          rcases List.mem_cons.mp (h.symm.subset (List.mem_cons_self b t2)) with
            h1 | h1
          · exact absurd h1.symm hne
          · exact h1
        have ha2 : a ∈ t2 := by
          rcases List.mem_cons.mp (h.subset (List.mem_cons_self a t1)) with
            h1 | h1
          · exact absurd h1 hne
          · exact h1
        have h1 : le (key a) (key b) = true := (List.pairwise_cons.mp hp1).1 b hb1
        have h2 : le (key b) (key a) = true := (List.pairwise_cons.mp hp2).1 a ha2
        have hk : key a = key b := hanti _ _ h1 h2
        have hmem : key b ∈ t1.map key := List.mem_map_of_mem key hb1
        rw [← hk] at hmem
        exact (List.nodup_cons.mp (by simpa using hnd)).1 hmem
      subst hab
      have heq := sorted_perm_eq_of_nodup_keys key le hanti t1 t2 h.cons_inv
        (List.pairwise_cons.mp hp1).2 (List.pairwise_cons.mp hp2).2
        (by simpa using (List.nodup_cons.mp (by simpa using hnd)).2)
      rw [heq]

theorem mapFormat_ok_forall₂ :
    ∀ (l : List VErr) (bs : List String), mapFormat l = Except.ok bs →
      List.Forall₂ (fun v b => format v = Except.ok b) l bs
  | [], bs, h => by
    simp only [mapFormat, Except.ok.injEq] at h
    rw [← h]
    exact List.Forall₂.nil
  | v :: vs, bs, h => by
    cases hf : format v with
    | error e => exact absurd h (by simp [mapFormat, hf])
    | ok b =>
      cases hm : mapFormat vs with
      | error e => exact absurd h (by simp [mapFormat, hf, hm])
      | ok bs2 =>
        simp only [mapFormat, hf, hm, Except.ok.injEq] at h
        rw [← h]
        exact List.Forall₂.cons hf (mapFormat_ok_forall₂ vs bs2 hm)

/-- C10: the message normalization `hack_error_message_fix` is idempotent
(a substitution never creates a new occurrence of either pattern, so a
second application changes nothing), and the sort key of a violation is
exactly the normalized message that `format` renders on its `Error:`
line. -/
theorem hack_error_message_fix_idempotent :
    (∀ s : String,
      hack_error_message_fix (hack_error_message_fix s) =
        hack_error_message_fix s) ∧
    (∀ ve : VErr, sort_key ve = hack_error_message_fix ve.message) := by
  constructor
  · intro s
    show String.mk (fixTail (fixHead (fixTail (fixHead s.data)))) =
      String.mk (fixTail (fixHead s.data))
    rw [fixHead_fixTail_of_head_safe (fixHead s.data) (fixHead_not_head_u s.data),
      fixTail_idem]
  · intro ve
    rfl

/-- C1: the claim states that `validate_json` returns `None` on zero
violations and otherwise returns a single error carrying the joined block
text.  The code breaks the second part: when a violation lies inside an
array, its `absolute_path` contains an integer index and the path join
`'.'.join(error.absolute_path)` raises `TypeError` instead of building the
error.  Evaluating the embedded code on the violation produced by
validating the instance `[1]` against the schema requiring string items
(message `m` standing for the engine text, path `[0]`, offending value
`1`) yields the exception, not a returned error. -/
theorem validate_json_typeerror_on_index_path :
    validate_json [⟨"m", [Seg.idx 0], Json.int 1⟩] =
      Except.error PyErr.typeError := rfl

/-- C3: the claim states every block for a violation with non-empty path
has a `Path:` line joining the segments with a dot.  For a path holding an
array index (an `int`), the join raises `TypeError` and no block is
produced at all; this theorem evaluates the embedded formatter at such a
violation. -/
theorem format_typeerror_on_index_path :
    format ⟨"q", [Seg.idx 2], Json.null⟩ = Except.error PyErr.typeError := rfl

theorem leVErr_total (a b : VErr) : leVErr a b = true ∨ leVErr b a = true :=
  pyStrLe_total (sort_key a) (sort_key b)

theorem leVErr_trans (a b c : VErr) (h1 : leVErr a b = true)
    (h2 : leVErr b c = true) : leVErr a c = true :=
  pyStrLe_trans h1 h2

theorem format_block_error_line (v : VErr) (b : String)
    (hf : format v = Except.ok b) :
    ∃ rest, b = "Error: " ++ sort_key v ++ "\n" ++ rest := by
  unfold format at hf
  by_cases hp : v.absolute_path.length > 0
  · rw [if_pos hp] at hf
    cases hj : joinSegs v.absolute_path with
    | none => rw [hj] at hf; exact absurd hf (by simp)
    | some p =>
      rw [hj] at hf
      exact ⟨"Path: " ++ p ++ "\n" ++ ("Value: " ++ dumps v.inst),
        (Except.ok.injEq _ _ ▸ hf).symm⟩
  · rw [if_neg hp] at hf
    exact ⟨"Value: " ++ dumps v.inst, (Except.ok.injEq _ _ ▸ hf).symm⟩

/-- C2: whenever `validate_json` returns an error, its message is exactly
the blocks of the violations joined with a blank line: one block per
violation, each block beginning with its `Error:` line, and the list of
`Error:` line texts ascending in lexicographic (case-sensitive,
code-point) order. -/
theorem validate_json_block_structure (ves : List VErr) (err : DefaultError)
    (h : validate_json ves = Except.ok (some err)) :
    ∃ vs blocks, vs.Perm ves ∧ mapFormat vs = Except.ok blocks ∧
      blocks.length = ves.length ∧
      err.message = String.intercalate "\n\n" blocks ∧
      (vs.map (fun v => "Error: " ++ sort_key v)).Pairwise
        (fun a b => pyStrLe a b = true) ∧
      List.Forall₂
        (fun v b => ∃ rest, b = "Error: " ++ sort_key v ++ "\n" ++ rest)
        vs blocks := by
  cases hm : mapFormat (pySorted leVErr ves) with
  | error e =>
    have hv : validate_json ves = Except.error e := by
      unfold validate_json
      rw [hm]
    rw [hv] at h
    exact absurd h (by simp)
  | ok blocks =>
    have hv : validate_json ves =
        if blocks.length = 0 then Except.ok none
        else Except.ok (some ⟨String.intercalate "\n\n" blocks⟩) := by
      unfold validate_json
      rw [hm]
    rw [hv] at h
    by_cases hz : blocks.length = 0
    · rw [if_pos hz] at h
      exact absurd h (by simp)
    · rw [if_neg hz] at h
      have herr : (⟨String.intercalate "\n\n" blocks⟩ : DefaultError) = err := by
        simpa only [Except.ok.injEq, Option.some.injEq] using h
      refine ⟨pySorted leVErr ves, blocks, pySorted_perm leVErr ves, hm,
        ?_, ?_, ?_, ?_⟩
      · rw [← (mapFormat_ok_forall₂ _ _ hm).length_eq,
          (pySorted_perm leVErr ves).length_eq]
      · rw [← herr]
      · rw [List.pairwise_map]
        refine (pySorted_pairwise leVErr_total leVErr_trans ves).imp ?_
        intro a b hab
        rw [pyStrLe_append]
        exact hab
      · exact (mapFormat_ok_forall₂ _ _ hm).imp format_block_error_line

/-- Witness for C2 at a concrete run: one violation with message `m`,
empty path and offending value `1`. -/
theorem validate_json_block_structure_witness :
    ∃ vs blocks, vs.Perm [(⟨"m", [], Json.int 1⟩ : VErr)] ∧
      mapFormat vs = Except.ok blocks ∧
      blocks.length = [(⟨"m", [], Json.int 1⟩ : VErr)].length ∧
      (⟨"Error: m\nValue: 1"⟩ : DefaultError).message =
        String.intercalate "\n\n" blocks ∧
      (vs.map (fun v => "Error: " ++ sort_key v)).Pairwise
        (fun a b => pyStrLe a b = true) ∧
      List.Forall₂
        (fun v b => ∃ rest, b = "Error: " ++ sort_key v ++ "\n" ++ rest)
        vs blocks :=
  validate_json_block_structure [⟨"m", [], Json.int 1⟩] ⟨"Error: m\nValue: 1"⟩ rfl

/-- Counterexample for C8: two violations with the same message `m` but
different offending values.  Python's `sorted` is stable, so the tie
between the equal sort keys is broken by the engine's enumeration order,
and the two enumeration orders of the same violation set produce different
error texts. -/
theorem validate_json_enumeration_order_cex :
    validate_json [⟨"m", [], Json.int 1⟩, ⟨"m", [], Json.int 2⟩] ≠
      validate_json [⟨"m", [], Json.int 2⟩, ⟨"m", [], Json.int 1⟩] := by
  intro hcontra
  have h1 : validate_json [⟨"m", [], Json.int 1⟩, ⟨"m", [], Json.int 2⟩] =
      Except.ok (some ⟨"Error: m\nValue: 1\n\nError: m\nValue: 2"⟩) := rfl
  have h2 : validate_json [⟨"m", [], Json.int 2⟩, ⟨"m", [], Json.int 1⟩] =
      Except.ok (some ⟨"Error: m\nValue: 2\n\nError: m\nValue: 1"⟩) := rfl
  rw [h1, h2] at hcontra
  simp only [Except.ok.injEq, Option.some.injEq, DefaultError.mk.injEq]
    at hcontra
  exact absurd hcontra (by decide)

/-- C8 amended: `validate_json` is independent of the order in which the
schema engine enumerates the violations provided no two violations share
the same normalized message (so the sort keys are pairwise distinct); the
sort then yields the same sequence for every enumeration order. -/
theorem validate_json_deterministic_on_distinct_messages
    (l1 l2 : List VErr) (hp : l1.Perm l2)
    (hnd : (l1.map sort_key).Nodup) :
    validate_json l1 = validate_json l2 := by
  have hs : pySorted leVErr l1 = pySorted leVErr l2 := by
    refine sorted_perm_eq_of_nodup_keys sort_key pyStrLe
      (fun a b hab hba => pyStrLe_antisymm hab hba) _ _
      ((pySorted_perm leVErr l1).trans
        (hp.trans (pySorted_perm leVErr l2).symm))
      (pySorted_pairwise leVErr_total leVErr_trans l1)
      (pySorted_pairwise leVErr_total leVErr_trans l2)
      (((pySorted_perm leVErr l1).map sort_key).nodup_iff.mpr hnd)
  unfold validate_json
  rw [hs]

/-- Witness for the amended C8: the two enumeration orders of two
violations with distinct messages produce the same result. -/
theorem validate_json_deterministic_witness :
    validate_json [⟨"a", [], Json.null⟩, ⟨"b", [], Json.null⟩] =
      validate_json [⟨"b", [], Json.null⟩, ⟨"a", [], Json.null⟩] :=
  validate_json_deterministic_on_distinct_messages _ _
    (List.Perm.swap _ _ _) (by decide)

theorem whichSearch_cons (sys : Sys) (program p : String) (ps : List String) :
    whichSearch sys program (p :: ps) =
      if is_exe sys (os_path_join (stripQuotes p) program)
      then some (os_path_join (stripQuotes p) program)
      else whichSearch sys program ps := rfl

theorem whichSearch_eq_find (sys : Sys) (program : String) :
    ∀ l : List String,
      whichSearch sys program l =
        (l.find? (fun e => is_exe sys (os_path_join (stripQuotes e) program))).map
          (fun e => os_path_join (stripQuotes e) program)
  | [] => rfl
  | p :: ps => by
    rw [whichSearch_cons]
    by_cases h : is_exe sys (os_path_join (stripQuotes p) program) = true
    · rw [if_pos h,
        @List.find?_cons_of_pos _
          (fun e => is_exe sys (os_path_join (stripQuotes e) program)) p ps h,
        Option.map_some']
    · rw [if_neg h,
        @List.find?_cons_of_neg _
          (fun e => is_exe sys (os_path_join (stripQuotes e) program)) p ps
          (by simpa using h)]
      exact whichSearch_eq_find sys program ps

theorem whichSearch_is_exe (sys : Sys) (program : String) :
    ∀ (l : List String) (r : String), whichSearch sys program l = some r →
      is_exe sys r = true
  | [], r, h => by simp [whichSearch] at h
  | p :: ps, r, h => by
    rw [whichSearch_cons] at h
    by_cases he : is_exe sys (os_path_join (stripQuotes p) program) = true
    · rw [if_pos he] at h
      obtain rfl : os_path_join (stripQuotes p) program = r :=
        Option.some.inj h
      exact he
    · rw [if_neg he] at h
      exact whichSearch_is_exe sys program ps r h

theorem string_mk_eq_empty_iff (l : List Char) : (⟨l⟩ : String) = "" ↔ l = [] := by
  constructor
  · intro h
    exact congrArg String.data h
  · rintro rfl
    rfl

theorem splitHeadChars_eq_nil_iff (p : String) :
    splitHeadChars p = [] ↔ ¬('/' ∈ p.data) := by
  unfold splitHeadChars
  rw [List.reverse_eq_nil_iff, List.dropWhile_eq_nil_iff]
  constructor
  · intro h hmem
    have := h '/' (List.mem_reverse.mpr hmem)
    simp at this
  · intro h x hx
    have hxp : x ∈ p.data := List.mem_reverse.mp hx
    have hne : x ≠ '/' := fun he => h (he ▸ hxp)
    simpa using hne

theorem split_head_empty_iff (p : String) :
    split_head p = "" ↔ ¬('/' ∈ p.data) := by
  unfold split_head
  by_cases hs : '/' ∈ p.data
  · have hne : splitHeadChars p ≠ [] :=
      fun hnil => ((splitHeadChars_eq_nil_iff p).mp hnil) hs
    rw [if_neg (by simpa [List.isEmpty_iff] using hne)]
    simp only [hs, not_true_eq_false, iff_false]
    intro hcontra
    by_cases hall : ((splitHeadChars p).all (fun c => c = '/')) = true
    · rw [if_pos hall] at hcontra
      exact hne ((string_mk_eq_empty_iff _).mp hcontra)
    · rw [if_neg hall] at hcontra
      have hnil2 := (string_mk_eq_empty_iff _).mp hcontra
      rw [List.reverse_eq_nil_iff, List.dropWhile_eq_nil_iff] at hnil2
      apply hall
      rw [List.all_eq_true]
      intro c hc
      exact hnil2 c (List.mem_reverse.mpr hc)
  · have hnil : splitHeadChars p = [] := (splitHeadChars_eq_nil_iff p).mpr hs
    rw [hnil]
    simp [hs]

/-- C4 amended: `which` returns a path to an executable file or `None`
(the path is not always absolute: it equals the program argument or a
joined search entry, either of which may be relative).  A program name
with a directory component is checked directly, without consulting the
search path; otherwise the name is joined to each entry of the search-path
variable in order and the first executable hit is returned. -/
theorem which_characterization (sys : Sys) (program : String) :
    (∀ r, which sys program = some r → is_exe sys r = true) ∧
    (split_head program = "" ↔ ¬('/' ∈ program.data)) ∧
    (¬ split_head program = "" →
      which sys program = if is_exe sys program then some program else none) ∧
    (split_head program = "" → sys.environ PATH_ENV = none →
      which sys program = none) ∧
    (∀ pv, split_head program = "" → sys.environ PATH_ENV = some pv →
      which sys program =
        ((pySplit pv ':').find?
            (fun e => is_exe sys (os_path_join (stripQuotes e) program))).map
          (fun e => os_path_join (stripQuotes e) program)) := by
  have hdir : ¬ split_head program = "" →
      which sys program = if is_exe sys program then some program else none := by
    intro h
    have hb : (split_head program).isEmpty = false := by
      rw [Bool.eq_false_iff]
      intro hc
      exact h ((String.isEmpty_iff _).mp hc)
    unfold which
    rw [hb]
    rfl
  have hnone : split_head program = "" → sys.environ PATH_ENV = none →
      which sys program = none := by
    intro h henv
    have hb : (split_head program).isEmpty = true := (String.isEmpty_iff _).mpr h
    unfold which
    rw [hb, henv]
    rfl
  have hsome : ∀ pv, split_head program = "" → sys.environ PATH_ENV = some pv →
      which sys program =
        ((pySplit pv ':').find?
            (fun e => is_exe sys (os_path_join (stripQuotes e) program))).map
          (fun e => os_path_join (stripQuotes e) program) := by
    intro pv h henv
    have hb : (split_head program).isEmpty = true := (String.isEmpty_iff _).mpr h
    unfold which
    rw [hb, henv]
    exact whichSearch_eq_find sys program _
  refine ⟨?_, split_head_empty_iff program, hdir, hnone, hsome⟩
  intro r hr
  by_cases h : split_head program = ""
  · cases henv : sys.environ PATH_ENV with
    | none =>
      rw [hnone h henv] at hr
      exact absurd hr (by simp)
    | some pv =>
      rw [hsome pv h henv] at hr
      obtain ⟨e, hfind, hfe⟩ := Option.map_eq_some'.mp hr
      have hpe := List.find?_some hfind
      rw [← hfe]
      simpa using hpe
  · rw [hdir h] at hr
    by_cases hex : is_exe sys program = true
    · rw [if_pos hex] at hr
      obtain rfl := Option.some.inj hr
      exact hex
    · rw [if_neg hex] at hr
      exact absurd hr (by simp)

/-- Counterexample for C4: for a program argument with a directory
component, `which` returns the argument itself, which need not be
absolute: here it returns the relative path `d/prog`. -/
theorem which_returns_relative_path_cex :
    which sysRelative "d/prog" = some "d/prog" ∧
      os_path_isabs "d/prog" = false := by
  exact ⟨by decide, by decide⟩

/-- Witness for C4 at a concrete lookup: `ls` resolves through the search
path to `/bin/ls`. -/
theorem which_characterization_witness :
    which sysSearch "ls" = some "/bin/ls" := by
  have h := (which_characterization sysSearch "ls").2.2.2.2 "/bin:/usr/bin"
    rfl rfl
  rw [h]
  rfl

/-- Counterexample for C5: the claim says the comparison with the valid
set is case-insensitive on the value.  The code tests membership with
`in`, which is case-sensitive: `DEBUG` matches `debug` case-insensitively
yet is rejected with an error. -/
theorem configure_logger_case_sensitive_cex :
    (configure_logger (some "DEBUG")).2 ≠ none ∧
      pyLower "DEBUG" ∈ VALID_LOG_LEVEL_VALUES := by
  exact ⟨by decide, by decide⟩

/-- C5 amended: absent input disables all logging output and returns no
error; a string input returns no error exactly when it is, case
sensitively, one of the fixed level names (which are lower-case, and are
upper-cased for the logging call); otherwise an error naming the invalid
value and the valid set is returned. -/
theorem configure_logger_characterization :
    configure_logger none = (LogEffect.disableAll, none) ∧
    (∀ s, s ∈ VALID_LOG_LEVEL_VALUES →
      configure_logger (some s) = (LogEffect.basicConfig (pyUpper s), none)) ∧
    (∀ s, ¬ s ∈ VALID_LOG_LEVEL_VALUES →
      configure_logger (some s) =
        (LogEffect.noop, some ⟨logLevelErrorMessage s⟩)) ∧
    (∀ s, (configure_logger (some s)).2 = none ↔ s ∈ VALID_LOG_LEVEL_VALUES) := by
  refine ⟨rfl, ?_, ?_, ?_⟩
  · intro s hs
    show (if s ∈ VALID_LOG_LEVEL_VALUES then
        (LogEffect.basicConfig (pyUpper s), (none : Option DefaultError))
      else (LogEffect.noop, some ⟨logLevelErrorMessage s⟩)) =
      (LogEffect.basicConfig (pyUpper s), none)
    rw [if_pos hs]
  · intro s hs
    show (if s ∈ VALID_LOG_LEVEL_VALUES then
        (LogEffect.basicConfig (pyUpper s), (none : Option DefaultError))
      else (LogEffect.noop, some ⟨logLevelErrorMessage s⟩)) =
      (LogEffect.noop, some ⟨logLevelErrorMessage s⟩)
    rw [if_neg hs]
  · intro s
    show ((if s ∈ VALID_LOG_LEVEL_VALUES then
        (LogEffect.basicConfig (pyUpper s), (none : Option DefaultError))
      else (LogEffect.noop, some ⟨logLevelErrorMessage s⟩))).2 = none ↔
      s ∈ VALID_LOG_LEVEL_VALUES
    by_cases hs : s ∈ VALID_LOG_LEVEL_VALUES
    · rw [if_pos hs]
      simpa using hs
    · rw [if_neg hs]
      simpa using hs

/-- Witness for C5 at concrete values: `debug` is accepted and upper-cased,
`Debug` is rejected. -/
theorem configure_logger_characterization_witness :
    configure_logger (some "debug") =
      (LogEffect.basicConfig (pyUpper "debug"), none) ∧
    configure_logger (some "Debug") =
      (LogEffect.noop, some ⟨logLevelErrorMessage "Debug"⟩) :=
  ⟨configure_logger_characterization.2.1 "debug" (by decide),
   configure_logger_characterization.2.2.1 "Debug" (by decide)⟩

/-- C6: the decode and parse wrappers are total: every input yields a
returned pair, never an escaping exception — on a failed decode/parse the
pair is `(None, error)` with the fixed generic message, on success the
parsed value with no error; `parse_int` maps `42` to `(42, None)` and
`abc` to `(None, error)`. -/
theorem json_and_int_wrappers_total :
    (∀ (decode : String → Option Json) (value : String),
      (∃ j, decode value = some j ∧ load_jsons decode value = (j, none)) ∨
      (decode value = none ∧
        load_jsons decode value = (Json.null, some ⟨"Error loading JSON."⟩))) ∧
    (∀ (decode : String → Option Json) (reader : String),
      (∃ j, decode reader = some j ∧ load_json decode reader = (j, none)) ∨
      (decode reader = none ∧
        load_json decode reader = (Json.null, some ⟨"Error loading JSON."⟩))) ∧
    parse_int "42" = (some 42, none) ∧
    parse_int "abc" = (none, some ⟨"Error parsing string as int"⟩) := by
  refine ⟨?_, ?_, by decide, by decide⟩
  · intro decode value
    cases hd : decode value with
    | some j => exact Or.inl ⟨j, rfl, by simp [load_jsons, hd]⟩
    | none => exact Or.inr ⟨rfl, by simp [load_jsons, hd]⟩
  · intro decode reader
    cases hd : decode reader with
    | some j => exact Or.inl ⟨j, rfl, by simp [load_json, hd]⟩
    | none => exact Or.inr ⟨rfl, by simp [load_json, hd]⟩

/-- Counterexample for C9: decoding the document `null` succeeds with the
Python value `None` in the value slot and no error, so the returned pair
is `(None, None)` — both slots empty, which the claimed invariant says is
never returned. -/
theorem load_jsons_null_collapse_cex :
    load_jsons decodeNullOnly "null" = (Json.null, none) := rfl

/-- C9 amended: every fallible wrapper returns `(value, error)` with the
error slot `None` exactly on success; on failure the value slot is `None`
and the error carries the fixed message.  For the JSON loaders the two
slots are otherwise exclusive except in one case the claim overlooks: a
document decoding to JSON null puts the Python value `None` in the value
slot with no error.  `parse_int` satisfies the exact exclusivity. -/
theorem result_error_pair_invariant :
    (∀ (decode : String → Option Json) (value : String),
      ((load_jsons decode value).2 = none ∧
        decode value = some (load_jsons decode value).1) ∨
      ((load_jsons decode value).1 = Json.null ∧
        (load_jsons decode value).2 = some ⟨"Error loading JSON."⟩ ∧
        decode value = none)) ∧
    (∀ (decode : String → Option Json) (reader : String),
      ((load_json decode reader).2 = none ∧
        decode reader = some (load_json decode reader).1) ∨
      ((load_json decode reader).1 = Json.null ∧
        (load_json decode reader).2 = some ⟨"Error loading JSON."⟩ ∧
        decode reader = none)) ∧
    (∀ s, ((parse_int s).1.isSome = true ∧ (parse_int s).2 = none) ∨
      ((parse_int s).1 = none ∧ (parse_int s).2.isSome = true)) := by
  refine ⟨?_, ?_, ?_⟩
  · intro decode value
    cases hd : decode value with
    | some j => exact Or.inl (by simp [load_jsons, hd])
    | none => exact Or.inr (by simp [load_jsons, hd])
  · intro decode reader
    cases hd : decode reader with
    | some j => exact Or.inl (by simp [load_json, hd])
    | none => exact Or.inr (by simp [load_json, hd])
  · intro s
    cases hp : pyInt s with
    | some n => exact Or.inl (by simp [parse_int, hp])
    | none => exact Or.inr (by simp [parse_int, hp])

/-- C7: on every exit path — the body returning normally or raising — the
temporary directory and all its contents are gone from the final file
system, and the body's outcome propagates unchanged. -/
theorem tempdir_releases_directory {ε α : Type} (d : String)
    (body : String → List String → Except ε α × List String)
    (fs : List String) :
    ((tempdir d body fs).2.all
        (fun p => !(p = d || strStartsWith p (d ++ "/"))) = true) ∧
    (tempdir d body fs).1 = (body d (d :: fs)).1 := by
  constructor
  · rw [List.all_eq_true]
    intro p hp
    have hmem : p ∈ rmtree_ignore_errors d (body d (d :: fs)).2 := hp
    exact (List.mem_filter.mp hmem).2
  · rfl
